import Mathlib

/-
Shallow embedding of the context-assembly pipeline of the personal_api_openai_gpt
repository (src/utils.py and src/context_manager.py), together with theorems
settling the specification claims about it.

Conventions of the embedding:
  * a Python dict message {"role": r, "content": c} is a `Msg`;
  * filesystem and remote-API effects are abstracted as explicit oracle
    parameters: `readFile` maps a path to the file text, and each remote
    summarization endpoint is a function returning `Option String`, where
    `none` models the call raising after the bounded retry loop under
    `max_retries` is exhausted (the retry loop is deterministic given the
    final outcome, so it is folded into one oracle answer);
  * `sys.exit(1)` and uncaught Python exceptions are modelled as the
    `none` case of an `Option` result;
  * persisted JSON state (conversation records, the summary ledger) is
    passed in already parsed; a conversation record whose JSON fails to
    parse is modelled as `none`.
-/

namespace PersonalApi

/-- A chat message: the embedding of a Python dict with a "role" and a
"content" field. -/
structure Msg where
  role : String
  content : String
deriving DecidableEq

/-- One entry of the persisted summary ledger, `{"step": n, "summary": s}`
(context_manager.py line 145). -/
structure LedgerEntry where
  step : Nat
  summary : String
deriving DecidableEq

/-- The parsed content of one persisted conversation-record JSON file as far
as `order_and_strip_metadata` inspects it: `messages` is `none` when the
document lacks a "messages" key (Python `data.get('messages', [])`). -/
structure RecData where
  messages : Option (List Msg)
deriving DecidableEq

/-- The messages `order_and_strip_metadata` keeps from one readable record:
those whose role is "user" or "assistant", with all other metadata dropped
(utils.py lines 25-30). -/
def stripRecord (rec : RecData) : List Msg :=
  (rec.messages.getD []).filter (fun m => m.role == "user" || m.role == "assistant")

/-- utils.py `order_and_strip_metadata` (lines 8-31): the input list is the
category folder content in modification-time order, one element per JSON
file; `none` models a file on which `json.load` raises. The Python body has
no exception handler, so a raising record makes the whole call raise, which
the embedding renders as the `none` result. -/
def order_and_strip_metadata : List (Option RecData) → Option (List Msg)
  | [] => some []
  | none :: _ => none
  | some rec :: rest =>
    match order_and_strip_metadata rest with
    | none => none
    | some ms => some (stripRecord rec ++ ms)

/-- The Python slice `xs[-k:]`: for `k = 0` the slice bound is `-0 == 0`, so
the WHOLE list is returned; for `k > 0` the start clamps at zero, yielding
the last `min k (length xs)` elements. -/
def pyLastSlice {α : Type} (k : Nat) (xs : List α) : List α :=
  if k = 0 then xs else xs.drop (xs.length - k)

/-- The history-selection policy, exactly the slicing applied at
context_manager.py lines 47-50 (raw-history path) and again at lines 150-153
(ledger-entry path): full history when `full_summary` is set or the sequence
fits `max_turns`, else `xs[:keep_first_n] + xs[-keep_last_n:]`. -/
def select {α : Type} (xs : List α) (keep_first_n keep_last_n max_turns : Nat)
    (full_summary : Bool) : List α :=
  if full_summary then xs
  else if xs.length ≤ max_turns then xs
  else xs.take keep_first_n ++ pyLastSlice keep_last_n xs

example : select [(0 : Nat), 1] 1 0 1 false = [0, 0, 1] := by decide
example : select [(0 : Nat), 1, 2, 3] 1 2 2 false = [0, 2, 3] := by decide
example : order_and_strip_metadata [some ⟨some [⟨"user", "hi"⟩]⟩, none] = none := by decide
example : order_and_strip_metadata [some ⟨some [⟨"user", "hi"⟩, ⟨"system", "s"⟩]⟩]
    = some [⟨"user", "hi"⟩] := by decide

/-- utils.py `count_tokens` (lines 34-53) with the tiktoken encoder
abstracted: `tokenOf c` stands for `len(encoding.encode(c))`; the function
sums it over the content of every message. -/
def count_tokens (tokenOf : String → Nat) (messages : List Msg) : Nat :=
  (messages.map (fun m => tokenOf m.content)).sum

/-- The fixed instruction message prepended to the selected history before
the full-summary remote call (context_manager.py lines 63-66). -/
def historySummaryInstruction : String :=
  "You will receive a set of messages from a previous conversation. Summarize their content clearly and concisely so it can be reused as context."

/-- The Python test `model.startswith("gpt-3.5")` (context_manager.py line
53), embedded over the character lists of the two strings. -/
def strStartsWith (s p : String) : Bool :=
  p.data.isPrefixOf s.data

/-- Result of `prepare_history_messages`: `outcome = none` models the
invocation aborting (the `sys.exit(1)` budget stop, a raised loader
exception, or retry exhaustion of the remote call); otherwise it carries the
returned `(selected, summary)` pair. `remoteCalls` counts the remote
summarization requests the invocation issued. -/
structure PrepResult where
  outcome : Option (List Msg × Option String)
  remoteCalls : Nat
deriving DecidableEq

/-- context_manager.py `prepare_history_messages` (lines 21-88), the Full
Summarizer path. `summaryOracle` abstracts the retried
`client.chat.completions.create` call on the instruction-plus-history
message list; `records` is the content of the conversation folder read by
`order_and_strip_metadata`. -/
def prepare_history_messages
    (summaryOracle : List Msg → Option String)
    (tokenOf : String → Nat)
    (records : List (Option RecData))
    (model : String)
    (include_history : Bool)
    (keep_first_n keep_last_n max_turns max_tokens_summary_input : Nat)
    (full_summary : Bool) : PrepResult :=
  if !include_history then ⟨some ([], none), 0⟩
  else
    match order_and_strip_metadata records with
    | none => ⟨none, 0⟩
    | some all_messages =>
      let selected := select all_messages keep_first_n keep_last_n max_turns full_summary
      if strStartsWith model "gpt-3.5" then ⟨some (selected, none), 0⟩
      else
        if count_tokens tokenOf selected > max_tokens_summary_input then ⟨none, 0⟩
        else
          match summaryOracle (⟨"user", historySummaryInstruction⟩ :: selected) with
          | some summary => ⟨some (selected, some summary), 1⟩
          | none => ⟨none, 1⟩

/-- Whether `sub` occurs as a contiguous run inside `cs` (the embedding of
the Python substring test `sub in s`). -/
def containsSub (sub : List Char) : List Char → Bool
  | [] => sub.isEmpty
  | c :: cs => sub.isPrefixOf (c :: cs) || containsSub sub cs

/-- The Python test `'\x60\x60\x60' in content` at context_manager.py
line 125: does the content hold a fenced-code marker of three backticks. -/
def containsTripleBacktick (s : String) : Bool :=
  containsSub ['\x60', '\x60', '\x60'] s.data

/-- The summary text obtained for one historical message in the incremental
path (context_manager.py lines 125-144), with the issued remote-call count:
with code-fragment summarization disabled and a fenced marker present the
verbatim content is used and no call is made; otherwise one remote call is
issued, whose exhausting-retries failure is the oracle answering `none`. -/
def incrementalSummary (incOracle : String → Option String)
    (summarize_code_fragments : Bool) (content : String) : Option String × Nat :=
  if !summarize_code_fragments && containsTripleBacktick content then
    (some content, 0)
  else
    (incOracle ("Summarize for context:\n\n" ++ content), 1)

/-- Result of `prepare_history_messages_incremental`: `ret = none` models the
invocation raising; `ledgerAfter` is the persisted ledger once the invocation
ends (unchanged when nothing was written); `ledgerWrites` counts writes of
the ledger file; `remoteCalls` counts remote summarization requests. -/
structure IncResult where
  ret : Option (List Msg)
  ledgerAfter : List LedgerEntry
  ledgerWrites : Nat
  remoteCalls : Nat
deriving DecidableEq

/-- context_manager.py `prepare_history_messages_incremental` (lines
91-155), the Incremental Summarizer. `ledger` is the parsed content of the
persisted `history_summary.json` (empty when the file is absent); the ledger
file is written exactly once, right after a new summary is obtained, and the
slicing of lines 150-153 plus the mapping of line 155 produce the return. -/
def prepare_history_messages_incremental
    (incOracle : String → Option String)
    (records : List (Option RecData))
    (ledger : List LedgerEntry)
    (include_history : Bool)
    (keep_first_n keep_last_n max_turns : Nat)
    (summarize_code_fragments full_summary : Bool) : IncResult :=
  if !include_history then ⟨some [], ledger, 0, 0⟩
  else
    match order_and_strip_metadata records with
    | none => ⟨none, ledger, 0, 0⟩
    | some all_messages =>
      if h : ledger.length < all_messages.length then
        let msg := all_messages.get ⟨ledger.length, h⟩
        match incrementalSummary incOracle summarize_code_fragments msg.content with
        | (some new_summary, calls) =>
          let summaries := ledger ++ [⟨ledger.length + 1, new_summary⟩]
          ⟨some ((select summaries keep_first_n keep_last_n max_turns full_summary).map
              (fun e => ⟨"user", e.summary⟩)), summaries, 1, calls⟩
        | (none, calls) => ⟨none, ledger, 0, calls⟩
      else
        ⟨some ((select ledger keep_first_n keep_last_n max_turns full_summary).map
            (fun e => ⟨"user", e.summary⟩)), ledger, 0, 0⟩

/-- An uploaded-file reference, the dict `{"path": ..., "summarize": ...}`;
`summarize = none` models a dict without the "summarize" key, so that
`entry.get("summarize", True)` is `summarize.getD true`. -/
structure FileRef where
  path : String
  summarize : Option Bool
deriving DecidableEq

/-- A remote call issued by the file ingestor, tagged by which summarization
endpoint was used and for which path. -/
inductive FileCall where
  | textSummary (path : String)
  | codeSummary (path : String)
deriving DecidableEq

/-- Index of the last occurrence of `c` in `cs`, or `none` (the embedding of
Python `str.rfind` restricted to whether-and-where). -/
def lastIdxOf (cs : List Char) (c : Char) : Option Nat :=
  ((cs.enum.filter (fun p => p.2 == c)).getLast?).map (fun p => p.1)

/-- The extension part of `os.path.splitext(path)` for POSIX paths, faithful
to CPython genericpath._splitext: the suffix from the last dot, provided that
dot lies after the last separator and the basename does not consist solely of
dots up to it (so dotfiles such as ".bashrc" have no extension). -/
def splitext_ext (p : String) : String :=
  let cs := p.data
  match lastIdxOf cs '.' with
  | none => ""
  | some dotIndex =>
    let filenameIndex :=
      match lastIdxOf cs '/' with
      | some sepIndex => sepIndex + 1
      | none => 0
    if filenameIndex ≤ dotIndex ∧
        ((cs.drop filenameIndex).take (dotIndex - filenameIndex)).any (fun ch => ch != '.') then
      String.mk (cs.drop dotIndex)
    else ""

/-- ASCII lowering of a string, the embedding of Python `str.lower()` on the
ASCII extensions it is applied to. -/
def strLower (s : String) : String :=
  String.mk (s.data.map Char.toLower)

example : strLower (splitext_ext "dir/A.TXT") = ".txt" := by decide
example : splitext_ext ".bashrc" = "" := by decide
example : splitext_ext "a.tar.gz" = ".gz" := by decide
example : containsTripleBacktick "x\x60\x60\x60y" = true := by decide
example : containsTripleBacktick "x\x60\x60y" = false := by decide

/-- Processing of one uploaded-file entry, the loop body of
context_manager.py `process_uploaded_files` (lines 210-240). `textOracle`
abstracts `summarize_text_file` (lines 158-176) and `codeOracle`
`summarize_code_flow` (lines 179-197), each applied to the full remote
prompt; `readFile` abstracts reading the file at a path (for the
other-extension branch it already stands for the lenient decoding). The
second component lists the remote calls issued, recorded even when the call
ends in retry exhaustion (`none` from the oracle, making the message
`none`). -/
def processOneFile (textOracle codeOracle : String → Option String)
    (readFile : String → String) (summarize_text : Bool)
    (entry : FileRef) : Option Msg × List FileCall :=
  let path := entry.path
  let summarize_flag := entry.summarize.getD true
  let ext := strLower (splitext_ext path)
  if ext == ".txt" then
    if summarize_text then
      match textOracle ("Summarize text:\n\n" ++ readFile path) with
      | some text => (some ⟨"user", text⟩, [.textSummary path])
      | none => (none, [.textSummary path])
    else
      (some ⟨"user", readFile path⟩, [])
  else if ext == ".py" || ext == ".js" || ext == ".ts" || ext == ".ipynb" then
    if summarize_flag then
      match codeOracle ("Analyze code:\n\n" ++ readFile path) with
      | some flow => (some ⟨"user", flow⟩, [.codeSummary path])
      | none => (none, [.codeSummary path])
    else
      (some ⟨"user", "\x60\x60\x60python\n" ++ readFile path ++ "\n\x60\x60\x60"⟩, [])
  else
    (some ⟨"user", readFile path⟩, [])

/-- context_manager.py `process_uploaded_files` (lines 200-242): one message
per entry in input order; a raising entry (failed remote call) aborts the
whole ingestion, and the calls issued up to and including it are recorded. -/
def process_uploaded_files (textOracle codeOracle : String → Option String)
    (readFile : String → String) (summarize_text : Bool) :
    List FileRef → Option (List Msg) × List FileCall
  | [] => (some [], [])
  | entry :: rest =>
    match processOneFile textOracle codeOracle readFile summarize_text entry with
    | (none, cs) => (none, cs)
    | (some m, cs) =>
      match process_uploaded_files textOracle codeOracle readFile summarize_text rest with
      | (none, cs2) => (none, cs ++ cs2)
      | (some ms, cs2) => (some (m :: ms), cs ++ cs2)

/-- Step 1 of context_manager.py `build_messages_from_context` (lines
265-280): the history component selected by `incremental_history`, with, on
the non-incremental path, the synthesized summary appended as one user
message when it is truthy (Python `if summary:` — `None` and the empty
string append nothing). -/
def history_component
    (incOracle : String → Option String)
    (fullOracle : List Msg → Option String)
    (tokenOf : String → Nat)
    (records : List (Option RecData))
    (ledger : List LedgerEntry)
    (model : String)
    (include_history : Bool)
    (keep_first_n keep_last_n max_turns max_tokens_summary_input : Nat)
    (summarize_code_fragments incremental_history full_summary : Bool) :
    Option (List Msg) :=
  if incremental_history then
    (prepare_history_messages_incremental incOracle records ledger include_history
        keep_first_n keep_last_n max_turns summarize_code_fragments full_summary).ret
  else
    match (prepare_history_messages fullOracle tokenOf records model include_history
        keep_first_n keep_last_n max_turns max_tokens_summary_input full_summary).outcome with
    | none => none
    | some (selected, summary) =>
      some (selected ++
        (match summary with
         | some s => if s == "" then [] else [⟨"user", s⟩]
         | none => []))

/-- context_manager.py `build_messages_from_context` (lines 245-287): history
component, then file ingestion, then exactly one final user message holding
the live prompt; `none` models any step raising or exiting. -/
def build_messages_from_context
    (incOracle : String → Option String)
    (fullOracle : List Msg → Option String)
    (textOracle codeOracle : String → Option String)
    (readFile : String → String)
    (tokenOf : String → Nat)
    (user_prompt : String)
    (uploaded_files : List FileRef)
    (records : List (Option RecData))
    (ledger : List LedgerEntry)
    (model : String)
    (include_history : Bool)
    (keep_first_n keep_last_n max_turns max_tokens_summary_input : Nat)
    (summarize_text_files summarize_code_fragments incremental_history full_summary : Bool) :
    Option (List Msg) :=
  match history_component incOracle fullOracle tokenOf records ledger model include_history
      keep_first_n keep_last_n max_turns max_tokens_summary_input
      summarize_code_fragments incremental_history full_summary with
  | none => none
  | some context_messages =>
    match process_uploaded_files textOracle codeOracle readFile summarize_text_files
        uploaded_files with
    | (none, _) => none
    | (some file_messages, _) =>
      some (context_messages ++ file_messages ++ [⟨"user", user_prompt⟩])

/-
Theorems settling the claims.
-/

/-- C1 counterexample: for `S = [0, 1]`, `keep_first_n = 1`, `keep_last_n = 0`,
`max_turns = 1`, `full_summary = false`, the claim predicts the selection
`[0]` of length `1 + 0`; the code instead evaluates `S[:1] + S[-0:]`, and the
Python slice `S[-0:]` is the whole list, giving `[0, 0, 1]` of length 3. -/
theorem c1_counterexample :
    select [(0 : Nat), 1] 1 0 1 false = [0, 0, 1] ∧
    select [(0 : Nat), 1] 1 0 1 false ≠ [0] ∧
    (select [(0 : Nat), 1] 1 0 1 false).length ≠ 1 + 0 := by
  decide

/-- C1 (amended): with `full_summary = true` the selection is the full
sequence; with `full_summary = false` and `length S ≤ max_turns` it is `S`
unchanged; with `max_turns < length S` it equals the first `keep_first_n`
elements followed by the last `keep_last_n` elements and has length
`keep_first_n + keep_last_n`, PROVIDED `keep_first_n ≤ length S` and
`1 ≤ keep_last_n ≤ length S` (outside those bounds the Python slices clamp,
and `S[-0:]` is the whole sequence). The same `select` is the slicing of
both the raw-history path (context_manager.py lines 47-50) and the
ledger-entry path (lines 150-153). -/
theorem c1_history_selection {α : Type} (S : List α)
    (keep_first_n keep_last_n max_turns : Nat) :
    select S keep_first_n keep_last_n max_turns true = S ∧
    (S.length ≤ max_turns → select S keep_first_n keep_last_n max_turns false = S) ∧
    (max_turns < S.length → keep_first_n ≤ S.length →
      1 ≤ keep_last_n → keep_last_n ≤ S.length →
      select S keep_first_n keep_last_n max_turns false
          = S.take keep_first_n ++ S.drop (S.length - keep_last_n) ∧
      (select S keep_first_n keep_last_n max_turns false).length
          = keep_first_n + keep_last_n) := by
  refine ⟨by simp [select], fun h => by simp [select, h], fun h1 h2 h3 h4 => ?_⟩
  have hns : ¬ S.length ≤ max_turns := not_le.mpr h1
  have hk2 : keep_last_n ≠ 0 := by omega
  have heq : select S keep_first_n keep_last_n max_turns false
      = S.take keep_first_n ++ S.drop (S.length - keep_last_n) := by
    simp [select, hns, pyLastSlice, hk2]
  refine ⟨heq, ?_⟩
  rw [heq]
  simp only [List.length_append, List.length_take, List.length_drop]
  omega

/-- C1 witness: concrete instances of the three parts of the amended
selection statement. -/
theorem c1_history_selection_witness :
    select [(0 : Nat), 1, 2, 3] 1 2 2 true = [0, 1, 2, 3] ∧
    select [(0 : Nat), 1] 1 2 3 false = [0, 1] ∧
    select [(0 : Nat), 1, 2, 3] 1 2 2 false
        = [(0 : Nat), 1, 2, 3].take 1 ++ [(0 : Nat), 1, 2, 3].drop ([(0 : Nat), 1, 2, 3].length - 2) ∧
    (select [(0 : Nat), 1, 2, 3] 1 2 2 false).length = 1 + 2 :=
  ⟨(c1_history_selection [0, 1, 2, 3] 1 2 2).1,
   (c1_history_selection [0, 1] 1 2 3).2.1 (by decide),
   ((c1_history_selection [0, 1, 2, 3] 1 2 2).2.2
      (by decide) (by decide) (by decide) (by decide)).1,
   ((c1_history_selection [0, 1, 2, 3] 1 2 2).2.2
      (by decide) (by decide) (by decide) (by decide)).2⟩

/-- C7 counterexample: a category with one readable record (one user
message) followed by one corrupted record. The claim predicts the corrupted
record is skipped and the messages of the readable record are returned; the
code has no exception handler around `json.load`, so the whole load raises
(result `none`). -/
theorem c7_counterexample :
    order_and_strip_metadata [some ⟨some [⟨"user", "hi"⟩]⟩, none] = none ∧
    order_and_strip_metadata [some ⟨some [⟨"user", "hi"⟩]⟩, none] ≠ some [⟨"user", "hi"⟩] := by
  decide

/-- C7 (amended): loading raises exactly when some stored record is
corrupted or unreadable — corrupted records are NOT skipped; when every
record is readable, the load returns the readable records flattened in
order, with each record reduced to its user/assistant messages stripped of
metadata. -/
theorem c7_loader_corrupt_behavior :
    (∀ records : List (Option RecData),
      (order_and_strip_metadata records = none ↔ none ∈ records)) ∧
    (∀ recs : List RecData,
      order_and_strip_metadata (recs.map some) = some (recs.map stripRecord).flatten) := by
  constructor
  · intro records
    induction records with
    | nil => simp [order_and_strip_metadata]
    | cons r rest ih =>
      cases r with
      | none => simp [order_and_strip_metadata]
      | some rec =>
        simp only [order_and_strip_metadata, List.mem_cons]
        cases hrec : order_and_strip_metadata rest <;> simp_all
  · intro recs
    induction recs with
    | nil => simp [order_and_strip_metadata]
    | cons rec rest ih => simp [order_and_strip_metadata, ih]

/-- Characterization of one incremental-summarizer invocation when the
ledger is behind the history and the single-message summary is obtained:
the new entry is appended, the ledger file written once, and the selection
applied to the extended ledger. -/
theorem inc_run_lt_some
    (incOracle : String → Option String) (records : List (Option RecData))
    (ledger : List LedgerEntry) (keep_first_n keep_last_n max_turns : Nat)
    (scf fs : Bool) (history : List Msg) (s : String) (c : Nat)
    (hload : order_and_strip_metadata records = some history)
    (h : ledger.length < history.length)
    (hsum : incrementalSummary incOracle scf (history.get ⟨ledger.length, h⟩).content
        = (some s, c)) :
    prepare_history_messages_incremental incOracle records ledger true
        keep_first_n keep_last_n max_turns scf fs
      = ⟨some ((select (ledger ++ [⟨ledger.length + 1, s⟩])
            keep_first_n keep_last_n max_turns fs).map (fun e => ⟨"user", e.summary⟩)),
         ledger ++ [⟨ledger.length + 1, s⟩], 1, c⟩ := by
  unfold prepare_history_messages_incremental
  simp only [Bool.not_true, Bool.false_eq_true, if_false, hload]
  rw [dif_pos h]
  rw [hsum]

/-- Characterization of one incremental-summarizer invocation when the
ledger is behind the history and the remote summarization call fails after
exhausting its retries: the call raises, nothing is written. -/
theorem inc_run_lt_none
    (incOracle : String → Option String) (records : List (Option RecData))
    (ledger : List LedgerEntry) (keep_first_n keep_last_n max_turns : Nat)
    (scf fs : Bool) (history : List Msg) (c : Nat)
    (hload : order_and_strip_metadata records = some history)
    (h : ledger.length < history.length)
    (hsum : incrementalSummary incOracle scf (history.get ⟨ledger.length, h⟩).content
        = (none, c)) :
    prepare_history_messages_incremental incOracle records ledger true
        keep_first_n keep_last_n max_turns scf fs
      = ⟨none, ledger, 0, c⟩ := by
  unfold prepare_history_messages_incremental
  simp only [Bool.not_true, Bool.false_eq_true, if_false, hload]
  rw [dif_pos h]
  rw [hsum]

/-- Characterization of one incremental-summarizer invocation when the
ledger is already caught up with the history: no remote call, no write, the
selection applied to the existing ledger entries. -/
theorem inc_run_caught_up
    (incOracle : String → Option String) (records : List (Option RecData))
    (ledger : List LedgerEntry) (keep_first_n keep_last_n max_turns : Nat)
    (scf fs : Bool) (history : List Msg)
    (hload : order_and_strip_metadata records = some history)
    (h : ¬ ledger.length < history.length) :
    prepare_history_messages_incremental incOracle records ledger true
        keep_first_n keep_last_n max_turns scf fs
      = ⟨some ((select ledger keep_first_n keep_last_n max_turns fs).map
            (fun e => ⟨"user", e.summary⟩)), ledger, 0, 0⟩ := by
  unfold prepare_history_messages_incremental
  simp only [Bool.not_true, Bool.false_eq_true, if_false, hload]
  rw [dif_neg h]

/-- C3: ledger evolution. Given the loaded history, an invocation that
completes (`ret.isSome`) with the ledger behind appends exactly one entry
whose step is the previous length plus one; a caught-up ledger is returned
unchanged; the prior entries are always a prefix of the resulting ledger
(never modified, reordered or removed); the step-alignment invariant
`ledger[i].step = i+1` is preserved; and the ledger length never comes to
exceed the history length. -/
theorem c3_ledger_evolution
    (incOracle : String → Option String) (records : List (Option RecData))
    (ledger : List LedgerEntry) (keep_first_n keep_last_n max_turns : Nat)
    (scf fs : Bool) (history : List Msg) (r : IncResult)
    (hload : order_and_strip_metadata records = some history)
    (hr : r = prepare_history_messages_incremental incOracle records ledger true
        keep_first_n keep_last_n max_turns scf fs)
    (hinv : ∀ i (hi : i < ledger.length), (ledger.get ⟨i, hi⟩).step = i + 1)
    (hlen : ledger.length ≤ history.length) :
    (r.ret.isSome → ledger.length < history.length →
      ∃ s, r.ledgerAfter = ledger ++ [⟨ledger.length + 1, s⟩]) ∧
    (history.length ≤ ledger.length → r.ledgerAfter = ledger) ∧
    r.ledgerAfter.take ledger.length = ledger ∧
    (∀ i (hi : i < r.ledgerAfter.length), (r.ledgerAfter.get ⟨i, hi⟩).step = i + 1) ∧
    r.ledgerAfter.length ≤ history.length := by
  by_cases h : ledger.length < history.length
  · rcases hsum : incrementalSummary incOracle scf
        (history.get ⟨ledger.length, h⟩).content with ⟨os, c⟩
    cases os with
    | some s =>
      rw [inc_run_lt_some incOracle records ledger keep_first_n keep_last_n max_turns
            scf fs history s c hload h hsum] at hr
      subst hr
      refine ⟨fun _ _ => ⟨s, rfl⟩, fun hge => absurd h (by omega), ?_, ?_, ?_⟩
      · exact List.take_left ledger [⟨ledger.length + 1, s⟩]
      · intro i hi
        simp only [List.length_append, List.length_cons, List.length_nil] at hi
        rcases Nat.lt_or_ge i ledger.length with hlt | hge
        · rw [List.get_eq_getElem, List.getElem_append_left hlt]
          simpa using hinv i hlt
        · have hieq : i = ledger.length := by omega
          subst hieq
          rw [List.get_eq_getElem, List.getElem_append_right (Nat.le_refl _)]
          simp
      · simp only [List.length_append, List.length_cons, List.length_nil]
        omega
    | none =>
      rw [inc_run_lt_none incOracle records ledger keep_first_n keep_last_n max_turns
            scf fs history c hload h hsum] at hr
      subst hr
      refine ⟨fun hsome _ => by simp at hsome, fun _ => rfl, List.take_length ledger,
        hinv, hlen⟩
  · rw [inc_run_caught_up incOracle records ledger keep_first_n keep_last_n max_turns
        scf fs history hload h] at hr
    subst hr
    exact ⟨fun _ hlt => absurd hlt h, fun _ => rfl, List.take_length ledger, hinv, hlen⟩

/-- C3 witness: a caught-up category (one historical message, one ledger
entry) — the ledger is returned unchanged, its prefix is itself, and the
length bound holds. -/
theorem c3_ledger_evolution_witness :
    (prepare_history_messages_incremental (fun _ => some "sum")
        [some ⟨some [⟨"user", "hi"⟩]⟩] [⟨1, "s"⟩] true 3 5 12 true false).ledgerAfter
      = [⟨1, "s"⟩] ∧
    (prepare_history_messages_incremental (fun _ => some "sum")
        [some ⟨some [⟨"user", "hi"⟩]⟩] [⟨1, "s"⟩] true 3 5 12 true false).ledgerAfter.take 1
      = [⟨1, "s"⟩] ∧
    (prepare_history_messages_incremental (fun _ => some "sum")
        [some ⟨some [⟨"user", "hi"⟩]⟩] [⟨1, "s"⟩] true 3 5 12 true false).ledgerAfter.length
      ≤ [(⟨"user", "hi"⟩ : Msg)].length := by
  have h := c3_ledger_evolution (fun _ => some "sum")
    [some ⟨some [⟨"user", "hi"⟩]⟩] [⟨1, "s"⟩] 3 5 12 true false
    [⟨"user", "hi"⟩] _ (by decide) rfl
    (fun i hi => by
      have : i = 0 := by simpa using Nat.lt_one_iff.mp (by simpa using hi)
      subst this; rfl)
    (by decide)
  exact ⟨h.2.1 (by decide), h.2.2.1, h.2.2.2.2⟩

/-- C4: idempotence of the incremental summarizer on a caught-up category —
the persisted ledger is unchanged, no ledger write and no remote call
happen, the returned list is the mapped selection over the ledger, and a
second invocation on the resulting persisted state returns the identical
result. -/
theorem c4_incremental_idempotence
    (incOracle : String → Option String) (records : List (Option RecData))
    (ledger : List LedgerEntry) (keep_first_n keep_last_n max_turns : Nat)
    (scf fs : Bool) (history : List Msg) (r : IncResult)
    (hload : order_and_strip_metadata records = some history)
    (hcaught : ledger.length = history.length)
    (hr : r = prepare_history_messages_incremental incOracle records ledger true
        keep_first_n keep_last_n max_turns scf fs) :
    r.ledgerAfter = ledger ∧ r.ledgerWrites = 0 ∧ r.remoteCalls = 0 ∧
    r.ret = some ((select ledger keep_first_n keep_last_n max_turns fs).map
        (fun e => ⟨"user", e.summary⟩)) ∧
    prepare_history_messages_incremental incOracle records r.ledgerAfter true
        keep_first_n keep_last_n max_turns scf fs = r := by
  have h : ¬ ledger.length < history.length := by omega
  rw [inc_run_caught_up incOracle records ledger keep_first_n keep_last_n max_turns
      scf fs history hload h] at hr
  subst hr
  exact ⟨rfl, rfl, rfl, rfl,
    inc_run_caught_up incOracle records ledger keep_first_n keep_last_n max_turns
      scf fs history hload h⟩

/-- C4 witness: the caught-up scenario with one historical message and one
ledger entry, instantiating every conjunct of the idempotence theorem. -/
theorem c4_incremental_idempotence_witness :
    (prepare_history_messages_incremental (fun _ => some "sum")
        [some ⟨some [⟨"user", "hi"⟩]⟩] [⟨1, "s"⟩] true 3 5 12 true false).ledgerAfter
      = [⟨1, "s"⟩] ∧
    (prepare_history_messages_incremental (fun _ => some "sum")
        [some ⟨some [⟨"user", "hi"⟩]⟩] [⟨1, "s"⟩] true 3 5 12 true false).ledgerWrites = 0 ∧
    (prepare_history_messages_incremental (fun _ => some "sum")
        [some ⟨some [⟨"user", "hi"⟩]⟩] [⟨1, "s"⟩] true 3 5 12 true false).remoteCalls = 0 ∧
    (prepare_history_messages_incremental (fun _ => some "sum")
        [some ⟨some [⟨"user", "hi"⟩]⟩] [⟨1, "s"⟩] true 3 5 12 true false).ret
      = some ((select [(⟨1, "s"⟩ : LedgerEntry)] 3 5 12 false).map
          (fun e => (⟨"user", e.summary⟩ : Msg))) ∧
    prepare_history_messages_incremental (fun _ => some "sum")
        [some ⟨some [⟨"user", "hi"⟩]⟩]
        (prepare_history_messages_incremental (fun _ => some "sum")
          [some ⟨some [⟨"user", "hi"⟩]⟩] [⟨1, "s"⟩] true 3 5 12 true false).ledgerAfter
        true 3 5 12 true false
      = prepare_history_messages_incremental (fun _ => some "sum")
          [some ⟨some [⟨"user", "hi"⟩]⟩] [⟨1, "s"⟩] true 3 5 12 true false :=
  c4_incremental_idempotence (fun _ => some "sum")
    [some ⟨some [⟨"user", "hi"⟩]⟩] [⟨1, "s"⟩] 3 5 12 true false
    [⟨"user", "hi"⟩] _ (by decide) (by decide) rfl

/-- C5: ledger atomicity on remote failure. If the remote summarization of
the next historical message fails (retries exhausted), the invocation
raises, the persisted ledger is exactly what it was, and the ledger file is
not written; conversely the ledger file is only ever written when the
summary for the next message was successfully obtained. -/
theorem c5_ledger_atomicity
    (incOracle : String → Option String) (records : List (Option RecData))
    (ledger : List LedgerEntry) (keep_first_n keep_last_n max_turns : Nat)
    (scf fs : Bool) (history : List Msg) (r : IncResult)
    (hload : order_and_strip_metadata records = some history)
    (hr : r = prepare_history_messages_incremental incOracle records ledger true
        keep_first_n keep_last_n max_turns scf fs) :
    (∀ (h : ledger.length < history.length),
      (incrementalSummary incOracle scf (history.get ⟨ledger.length, h⟩).content).1 = none →
      r.ret = none ∧ r.ledgerAfter = ledger ∧ r.ledgerWrites = 0) ∧
    (r.ledgerWrites ≠ 0 →
      ∀ (h : ledger.length < history.length),
        (incrementalSummary incOracle scf
            (history.get ⟨ledger.length, h⟩).content).1.isSome) := by
  by_cases h : ledger.length < history.length
  · rcases hsum : incrementalSummary incOracle scf
        (history.get ⟨ledger.length, h⟩).content with ⟨os, c⟩
    cases os with
    | some s =>
      rw [inc_run_lt_some incOracle records ledger keep_first_n keep_last_n max_turns
            scf fs history s c hload h hsum] at hr
      subst hr
      constructor
      · intro h2 hnone
        rw [hsum] at hnone
        simp at hnone
      · intro _ h2
        rw [hsum]
        simp
    | none =>
      rw [inc_run_lt_none incOracle records ledger keep_first_n keep_last_n max_turns
            scf fs history c hload h hsum] at hr
      subst hr
      exact ⟨fun _ _ => ⟨rfl, rfl, rfl⟩, fun hw => absurd rfl hw⟩
  · rw [inc_run_caught_up incOracle records ledger keep_first_n keep_last_n max_turns
        scf fs history hload h] at hr
    subst hr
    exact ⟨fun hlt _ => absurd hlt h, fun hw => absurd rfl hw⟩

/-- C5 witness: empty ledger, one historical message, failing remote oracle
— the invocation raises and the persisted ledger is untouched. -/
theorem c5_ledger_atomicity_witness :
    (prepare_history_messages_incremental (fun _ => none)
        [some ⟨some [⟨"user", "hi"⟩]⟩] [] true 3 5 12 true false).ret = none ∧
    (prepare_history_messages_incremental (fun _ => none)
        [some ⟨some [⟨"user", "hi"⟩]⟩] [] true 3 5 12 true false).ledgerAfter = [] ∧
    (prepare_history_messages_incremental (fun _ => none)
        [some ⟨some [⟨"user", "hi"⟩]⟩] [] true 3 5 12 true false).ledgerWrites = 0 :=
  (c5_ledger_atomicity (fun _ => none) [some ⟨some [⟨"user", "hi"⟩]⟩] [] 3 5 12
      true false [⟨"user", "hi"⟩] _ (by decide) rfl).1 (by decide) (by decide)

/-- Characterization of the full-summarizer path when the model is not on
the lightweight tier, the token budget is respected and the remote call
succeeds: returns the selection plus the summary with one remote call. -/
theorem prep_run_ok
    (summaryOracle : List Msg → Option String) (tokenOf : String → Nat)
    (records : List (Option RecData)) (model : String)
    (keep_first_n keep_last_n max_turns max_tokens_summary_input : Nat)
    (fs : Bool) (history : List Msg) (s : String)
    (hload : order_and_strip_metadata records = some history)
    (hmodel : strStartsWith model "gpt-3.5" = false)
    (hbudget : ¬ count_tokens tokenOf
        (select history keep_first_n keep_last_n max_turns fs) > max_tokens_summary_input)
    (horacle : summaryOracle (⟨"user", historySummaryInstruction⟩ ::
        select history keep_first_n keep_last_n max_turns fs) = some s) :
    prepare_history_messages summaryOracle tokenOf records model true
        keep_first_n keep_last_n max_turns max_tokens_summary_input fs
      = ⟨some (select history keep_first_n keep_last_n max_turns fs, some s), 1⟩ := by
  unfold prepare_history_messages
  simp only [Bool.not_true, Bool.false_eq_true, if_false, hload, hmodel]
  rw [if_neg hbudget, horacle]

/-- C6: the full-summarizer budget gate. With history loaded, a model not on
the lightweight tier and the selected history counting strictly more tokens
than `max_tokens_summary_input`, the invocation aborts (`sys.exit(1)`)
having issued zero remote summarization calls. -/
theorem c6_budget_gate
    (summaryOracle : List Msg → Option String) (tokenOf : String → Nat)
    (records : List (Option RecData)) (model : String)
    (keep_first_n keep_last_n max_turns max_tokens_summary_input : Nat)
    (fs : Bool) (history : List Msg) (r : PrepResult)
    (hload : order_and_strip_metadata records = some history)
    (hmodel : strStartsWith model "gpt-3.5" = false)
    (hbudget : count_tokens tokenOf
        (select history keep_first_n keep_last_n max_turns fs) > max_tokens_summary_input)
    (hr : r = prepare_history_messages summaryOracle tokenOf records model true
        keep_first_n keep_last_n max_turns max_tokens_summary_input fs) :
    r.outcome = none ∧ r.remoteCalls = 0 := by
  subst hr
  unfold prepare_history_messages
  simp only [Bool.not_true, Bool.false_eq_true, if_false, hload, hmodel]
  rw [if_pos hbudget]
  exact ⟨rfl, rfl⟩

/-- C6 witness: one historical message counting 100 tokens against a ceiling
of 0, model "gpt-4" — fatal abort, zero remote calls. -/
theorem c6_budget_gate_witness :
    (prepare_history_messages (fun _ => some "sum") (fun _ => 100)
        [some ⟨some [⟨"user", "hi"⟩]⟩] "gpt-4" true 3 5 12 0 false).outcome = none ∧
    (prepare_history_messages (fun _ => some "sum") (fun _ => 100)
        [some ⟨some [⟨"user", "hi"⟩]⟩] "gpt-4" true 3 5 12 0 false).remoteCalls = 0 :=
  c6_budget_gate (fun _ => some "sum") (fun _ => 100) [some ⟨some [⟨"user", "hi"⟩]⟩]
    "gpt-4" 3 5 12 0 false [⟨"user", "hi"⟩] _ (by decide) (by decide) (by decide) rfl

/-- C2: context-assembly order. Whenever the history component yields
`ctx` and file ingestion yields `fm`, the assembled list is exactly
`ctx ++ fm ++ [one user message holding the live prompt verbatim]`. -/
theorem c2_assembly_order
    (incOracle : String → Option String) (fullOracle : List Msg → Option String)
    (textOracle codeOracle : String → Option String)
    (readFile : String → String) (tokenOf : String → Nat)
    (user_prompt : String) (uploaded_files : List FileRef)
    (records : List (Option RecData)) (ledger : List LedgerEntry)
    (model : String) (include_history : Bool)
    (keep_first_n keep_last_n max_turns max_tokens_summary_input : Nat)
    (summarize_text_files summarize_code_fragments incremental_history full_summary : Bool)
    (ctx fm : List Msg) (calls : List FileCall)
    (hctx : history_component incOracle fullOracle tokenOf records ledger model
        include_history keep_first_n keep_last_n max_turns max_tokens_summary_input
        summarize_code_fragments incremental_history full_summary = some ctx)
    (hfm : process_uploaded_files textOracle codeOracle readFile summarize_text_files
        uploaded_files = (some fm, calls)) :
    build_messages_from_context incOracle fullOracle textOracle codeOracle readFile
        tokenOf user_prompt uploaded_files records ledger model include_history
        keep_first_n keep_last_n max_turns max_tokens_summary_input
        summarize_text_files summarize_code_fragments incremental_history full_summary
      = some (ctx ++ fm ++ [⟨"user", user_prompt⟩]) := by
  unfold build_messages_from_context
  rw [hctx, hfm]

/-- C2 witness: empty history (history disabled), no uploaded files, prompt
"explain" — the assembly is exactly the final live-prompt message. -/
theorem c2_assembly_order_witness :
    build_messages_from_context (fun _ => some "i") (fun _ => some "s")
        (fun _ => some "t") (fun _ => some "c") (fun _ => "f") (fun _ => 1)
        "explain" [] [] [] "gpt-4" false 3 5 12 3000 false true true false
      = some ([] ++ [] ++ [⟨"user", "explain"⟩]) :=
  c2_assembly_order (fun _ => some "i") (fun _ => some "s") (fun _ => some "t")
    (fun _ => some "c") (fun _ => "f") (fun _ => 1) "explain" [] [] [] "gpt-4"
    false 3 5 12 3000 false true true false [] [] [] rfl rfl

/-- C8 counterexample: the reference `{"path": "a.txt", "summarize": false}`
with the global text-summarization flag set. The claim predicts no remote
call (the per-file flag, present and false, should win); the code dispatches
`.txt` files on the GLOBAL flag alone and issues the remote call. -/
theorem c8_counterexample :
    (process_uploaded_files (fun _ => some "sum") (fun _ => some "flow")
        (fun _ => "body") true [⟨"a.txt", some false⟩]).2
      = [FileCall.textSummary "a.txt"] ∧
    (⟨"a.txt", some false⟩ : FileRef).summarize.getD true = false := by
  decide

/-- C8 (amended): for a `.txt` reference the remote text-summarization call
is issued iff the GLOBAL `summarize_text` flag is set; the per-file flag is
ignored on this branch (the result is invariant under it); with the global
flag unset the verbatim file content is included as one user message. -/
theorem c8_txt_dispatch
    (textOracle codeOracle : String → Option String) (readFile : String → String)
    (summarize_text : Bool) (entry : FileRef)
    (hext : strLower (splitext_ext entry.path) = ".txt") :
    ((processOneFile textOracle codeOracle readFile summarize_text entry).2 ≠ []
        ↔ summarize_text = true) ∧
    (summarize_text = false →
      processOneFile textOracle codeOracle readFile summarize_text entry
        = (some ⟨"user", readFile entry.path⟩, [])) ∧
    (∀ b : Option Bool,
      processOneFile textOracle codeOracle readFile summarize_text ⟨entry.path, b⟩
        = processOneFile textOracle codeOracle readFile summarize_text entry) := by
  refine ⟨?_, ?_, ?_⟩
  · cases summarize_text with
    | true =>
      simp only [processOneFile, hext]
      cases textOracle ("Summarize text:\n\n" ++ readFile entry.path) <;> simp
    | false => simp [processOneFile, hext]
  · intro hst
    subst hst
    simp [processOneFile, hext]
  · intro b
    simp [processOneFile, hext]

/-- C8 witness: a `.txt` reference with no per-file flag and the global flag
unset is included verbatim with no remote call. -/
theorem c8_txt_dispatch_witness :
    processOneFile (fun _ => some "sum") (fun _ => some "flow") (fun _ => "body")
        false ⟨"note.txt", none⟩
      = (some ⟨"user", "body"⟩, []) := by
  have h := c8_txt_dispatch (fun _ => some "sum") (fun _ => some "flow")
    (fun _ => "body") false ⟨"note.txt", none⟩ (by decide)
  exact h.2.1 rfl

/-- C10: a code-extension reference (.py/.js/.ts/.ipynb) whose record lacks
the "summarize" key defaults the flag to true and is dispatched to the
remote code summarization (call issued even when it then fails), never to
the verbatim fenced-code branch. -/
theorem c10_code_default_summarize
    (textOracle codeOracle : String → Option String) (readFile : String → String)
    (summarize_text : Bool) (path : String)
    (hext : strLower (splitext_ext path) = ".py" ∨ strLower (splitext_ext path) = ".js"
        ∨ strLower (splitext_ext path) = ".ts" ∨ strLower (splitext_ext path) = ".ipynb") :
    processOneFile textOracle codeOracle readFile summarize_text ⟨path, none⟩
      = ((codeOracle ("Analyze code:\n\n" ++ readFile path)).map
            (fun flow => ⟨"user", flow⟩),
         [FileCall.codeSummary path]) := by
  rcases hext with h | h | h | h <;>
  · simp only [processOneFile, h]
    cases codeOracle ("Analyze code:\n\n" ++ readFile path) <;> simp

/-- C10 witness: the reference `{"path": "m.py"}` without a "summarize" key
is summarized remotely by default. -/
theorem c10_code_default_summarize_witness :
    processOneFile (fun _ => some "t") (fun _ => some "flow") (fun _ => "code")
        false ⟨"m.py", none⟩
      = (some ⟨"user", "flow"⟩, [FileCall.codeSummary "m.py"]) := by
  have h := c10_code_default_summarize (fun _ => some "t") (fun _ => some "flow")
    (fun _ => "code") false "m.py" (Or.inl (by decide))
  simpa using h

/-- C9 counterexample: scenario B made concrete — 20 historical user
messages, `keep_first_n = 3`, `keep_last_n = 5`, `max_turns = 12`,
non-incremental, model "gpt-4", zero-token counter, no files. The claim
predicts 9 assembled messages; the code assembles 10 (3 + 5 raw messages,
one summary, one live prompt = 10). -/
theorem c9_counterexample :
    (build_messages_from_context (fun _ => some "inc") (fun _ => some "sum")
        (fun _ => some "t") (fun _ => some "c") (fun _ => "f") (fun _ => 0) "ask" []
        [some ⟨some (List.replicate 20 ⟨"user", "m"⟩)⟩] [] "gpt-4" true 3 5 12 3000
        false true false false).map List.length = some 10 ∧
    (build_messages_from_context (fun _ => some "inc") (fun _ => some "sum")
        (fun _ => some "t") (fun _ => some "c") (fun _ => "f") (fun _ => 0) "ask" []
        [some ⟨some (List.replicate 20 ⟨"user", "m"⟩)⟩] [] "gpt-4" true 3 5 12 3000
        false true false false).map List.length ≠ some 9 := by
  decide

/-- C9 (amended): scenario B with a 20-message history, policy (3, 5, 12),
non-incremental strategy, non-lightweight model, token count within the
ceiling, a successful non-empty summary and no files assembles the first 3
plus last 5 raw messages, one summary message, and the live prompt — 10
messages in total (not 9). -/
theorem c9_scenario_b
    (incOracle : String → Option String) (fullOracle : List Msg → Option String)
    (textOracle codeOracle : String → Option String) (readFile : String → String)
    (tokenOf : String → Nat) (user_prompt : String)
    (records : List (Option RecData)) (ledger : List LedgerEntry) (model : String)
    (history : List Msg) (s : String)
    (hload : order_and_strip_metadata records = some history)
    (hlen : history.length = 20)
    (hmodel : strStartsWith model "gpt-3.5" = false)
    (hbudget : count_tokens tokenOf (select history 3 5 12 false) ≤ 3000)
    (horacle : fullOracle (⟨"user", historySummaryInstruction⟩ ::
        select history 3 5 12 false) = some s)
    (hs : s ≠ "") :
    build_messages_from_context incOracle fullOracle textOracle codeOracle readFile
        tokenOf user_prompt [] records ledger model true 3 5 12 3000
        false true false false
      = some (history.take 3 ++ history.drop (history.length - 5)
          ++ [⟨"user", s⟩] ++ [⟨"user", user_prompt⟩]) ∧
    (build_messages_from_context incOracle fullOracle textOracle codeOracle readFile
        tokenOf user_prompt [] records ledger model true 3 5 12 3000
        false true false false).map List.length = some 10 := by
  have hgt : ¬ history.length ≤ 12 := by omega
  have hsel : select history 3 5 12 false
      = history.take 3 ++ history.drop (history.length - 5) := by
    simp [select, pyLastSlice, hgt]
  have hsne : (s == "") = false := beq_eq_false_iff_ne.mpr hs
  have hprep := prep_run_ok fullOracle tokenOf records model 3 5 12 3000 false history s
    hload hmodel (by omega) horacle
  have hmain : build_messages_from_context incOracle fullOracle textOracle codeOracle
      readFile tokenOf user_prompt [] records ledger model true 3 5 12 3000
      false true false false
      = some (history.take 3 ++ history.drop (history.length - 5)
          ++ [⟨"user", s⟩] ++ [⟨"user", user_prompt⟩]) := by
    unfold build_messages_from_context history_component
    simp only [Bool.false_eq_true, if_false, hprep, hsne, hsel]
    simp [process_uploaded_files, List.append_assoc]
  refine ⟨hmain, ?_⟩
  rw [hmain]
  simp only [Option.map_some', Option.some.injEq, List.length_append,
    List.length_take, List.length_drop, List.length_cons, List.length_nil]
  omega

/-- C9 witness: the concrete 20-message scenario instantiating the amended
scenario-B theorem. -/
theorem c9_scenario_b_witness :
    build_messages_from_context (fun _ => some "inc") (fun _ => some "sum")
        (fun _ => some "t") (fun _ => some "c") (fun _ => "f") (fun _ => 0) "ask" []
        [some ⟨some (List.replicate 20 ⟨"user", "m"⟩)⟩] [] "gpt-4" true 3 5 12 3000
        false true false false
      = some ((List.replicate 20 (⟨"user", "m"⟩ : Msg)).take 3
          ++ (List.replicate 20 (⟨"user", "m"⟩ : Msg)).drop
              ((List.replicate 20 (⟨"user", "m"⟩ : Msg)).length - 5)
          ++ [⟨"user", "sum"⟩] ++ [⟨"user", "ask"⟩]) :=
  (c9_scenario_b (fun _ => some "inc") (fun _ => some "sum") (fun _ => some "t")
    (fun _ => some "c") (fun _ => "f") (fun _ => 0) "ask"
    [some ⟨some (List.replicate 20 ⟨"user", "m"⟩)⟩] [] "gpt-4"
    (List.replicate 20 ⟨"user", "m"⟩) "sum" (by decide) (by decide) (by decide)
    (by decide) rfl (by decide)).1

end PersonalApi
